import Mathlib

/-!
Shallow embedding of the LBPR live-Bitcoin-price mod (`src/src/mod.ts`).

The program keeps one mutable in-memory price (the Tracked Item
`LBPR.bitcoin.Price`), a JSON config file, and a JSON price-cache file.
JavaScript numbers are modelled as `ℚ` (floating point is out of scope;
every number the program manipulates is exact at this granularity), file
contents as inductive "file state" values, the logger as a list of tagged
events, and the wall clock / file-system success as explicit parameters.
-/

namespace LBPR

/-- Config shape `LBPRConfig.advanced` from the source. -/
structure AdvancedConfig where
  enablePriceCaching : Bool
  cacheExpirationHours : ℚ
  apiTimeout : ℚ
  userAgent : String
deriving DecidableEq, Repr

/-- Config shape `LBPRConfig` from the source. -/
structure LBPRConfig where
  updateInterval : ℚ
  enableLogging : Bool
  enablePeriodicUpdates : Bool
  advanced : AdvancedConfig
deriving DecidableEq, Repr

/-- The default config object written / used by `loadConfig`. -/
def defaultConfig : LBPRConfig :=
  { updateInterval := 2700
    enableLogging := true
    enablePeriodicUpdates := true
    advanced :=
      { enablePriceCaching := true
        cacheExpirationHours := 6
        apiTimeout := 15000
        userAgent := "SPT-LiveBTC-PVE" } }

/-- A JSON value stored under the `BITCOIN_ID` key of the price-cache file:
the `PriceCache` index signature admits `number | string`, and the key can
also be absent altogether. -/
inductive StoredVal where
  | num (q : ℚ)
  | str (s : String)
  | absent
deriving DecidableEq, Repr

/-- Parsed content of the price-cache file (`PriceCache`). -/
structure CacheData where
  entry : StoredVal
  gameMode : String
  lastUpdate : ℚ
deriving DecidableEq, Repr

/-- State of the price-cache file on disk as `loadCachedPrice` can observe
it: absent, unreadable/unparseable (the `catch` branch), or parsed. -/
inductive CacheFileState where
  | missing
  | corrupt
  | parsed (d : CacheData)
deriving DecidableEq, Repr

/-- Tags for the messages the source passes to `LBPR.log`. -/
inductive LogEvent where
  | apiError
  | apiTimeout
  | parseError
  | fetchFailed
  | invalidPrice
  | priceDelta (oldP newP : ℚ)
  | priceCached
  | cacheSaveFailed
  | noCacheFile
  | cacheReadFailed
  | invalidCachePrice
  | cacheExpired
  | cacheValid
  | fallback (oldP newP : ℚ)
  | matchesCache (p : ℚ)
  | noValidCache (p : ℚ)
  | configLoadFailed
  | startupFallback (p : ℚ)
  | startupNoCache
  | scheduledUpdateStart
  | scheduledUpdateFailed
  | updatesScheduled
deriving DecidableEq, Repr

/-- `LBPR.log`: emits the event only when `config.enableLogging` is truthy
(the config is fully loaded whenever these code paths run). -/
def logE (cfg : LBPRConfig) (e : LogEvent) : List LogEvent :=
  if cfg.enableLogging then [e] else []

/-- `loadCachedPrice` from the source: returns the cached price, or `none`
when caching is disabled, the file is missing or unreadable, the stored
value is not a positive number, or the record's age in hours exceeds
`cacheExpirationHours`. Also returns the log events it produces. `now` is
`Date.now() / 1000` (seconds, possibly fractional). -/
def loadCachedPrice (cfg : LBPRConfig) (file : CacheFileState) (now : ℚ) :
    Option ℚ × List LogEvent :=
  if !cfg.advanced.enablePriceCaching then (none, [])
  else
    match file with
    | .missing => (none, logE cfg .noCacheFile)
    | .corrupt => (none, logE cfg .cacheReadFailed)
    | .parsed d =>
      match d.entry with
      | .num q =>
        if q ≤ 0 then (none, logE cfg .invalidCachePrice)
        else
          let cacheAgeHours := (now - d.lastUpdate) / 3600
          if cacheAgeHours > cfg.advanced.cacheExpirationHours then
            (none, logE cfg .cacheExpired)
          else (some q, logE cfg .cacheValid)
      | _ => (none, logE cfg .invalidCachePrice)

/-- `savePriceToCache` from the source: no-op when caching is disabled;
otherwise writes `{ [BITCOIN_ID]: price, gameMode: "pve", lastUpdate:
Math.floor(Date.now()/1000) }`. A thrown write error (`writeOk = false`)
is caught and logged, leaving the file as it was. -/
def savePriceToCache (cfg : LBPRConfig) (price : ℚ) (now : ℚ) (writeOk : Bool)
    (file : CacheFileState) : CacheFileState × List LogEvent :=
  if !cfg.advanced.enablePriceCaching then (file, [])
  else if writeOk then
    (.parsed { entry := .num price, gameMode := "pve", lastUpdate := (⌊now⌋ : ℚ) },
     logE cfg .priceCached)
  else (file, logE cfg .cacheSaveFailed)

/-- Mutable program state touched by a fetch cycle: the Tracked Item's
price field, the cache file, and the log. The Tracked Item itself is
present (the `!LBPR.bitcoin` guards concern the branch where startup
already bailed out). -/
structure EngineState where
  bitcoinPrice : ℚ
  cacheFile : CacheFileState
  logs : List LogEvent
deriving DecidableEq, Repr

/-- Append log events to the state. -/
def EngineState.withLogs (st : EngineState) (ls : List LogEvent) : EngineState :=
  { st with logs := st.logs ++ ls }

/-- `handleApiFailure` from the source: load the cached price; if one
exists and differs from the live price, apply it (fallback); if it exists
and matches, log that; otherwise keep the current price and log that. -/
def handleApiFailure (cfg : LBPRConfig) (now : ℚ) (st : EngineState) : EngineState :=
  let r := loadCachedPrice cfg st.cacheFile now
  let st := st.withLogs r.2
  match r.1 with
  | some c =>
    if c ≠ st.bitcoinPrice then
      { st with bitcoinPrice := c,
                logs := st.logs ++ logE cfg (.fallback st.bitcoinPrice c) }
    else st.withLogs (logE cfg (.matchesCache c))
  | none => st.withLogs (logE cfg (.noValidCache st.bitcoinPrice))

/-- One element of `response.data.items`. `basePrice` is `none` when the
field is absent from the JSON object. -/
structure RespItem where
  basePrice : Option ℚ
deriving DecidableEq, Repr

/-- Outcome of the single HTTPS request issued by `updatePrice`:
transport error (`req.on "error"`), timeout (`req.on "timeout"`), a body
that `JSON.parse` rejects, or a parsed `TarkovDevResponse`. `hasErrors`
models a truthy `response.errors`; a missing `data`/`items` is the empty
item list. -/
inductive ApiOutcome where
  | transportError
  | timeout
  | malformedBody
  | parsedResp (hasErrors : Bool) (items : List RespItem)
deriving DecidableEq, Repr

/-- Shared failure path of `updatePrice`: log the distinguishing message,
run `handleApiFailure`, resolve `false`. -/
def failWith (cfg : LBPRConfig) (now : ℚ) (e : LogEvent) (st : EngineState) :
    Bool × EngineState :=
  (false, handleApiFailure cfg now (st.withLogs (logE cfg e)))

/-- `updatePrice` from the source, as a function of the request outcome:
on a parsed response with no `errors`, a first item, and a present
positive `basePrice`, floor it into the Tracked Item, log the delta, save
to cache, and resolve `true`; every other path logs its distinct reason,
runs `handleApiFailure`, and resolves `false`. -/
def updatePrice (cfg : LBPRConfig) (outcome : ApiOutcome) (now : ℚ)
    (writeOk : Bool) (st : EngineState) : Bool × EngineState :=
  match outcome with
  | .transportError => failWith cfg now .apiError st
  | .timeout => failWith cfg now .apiTimeout st
  | .malformedBody => failWith cfg now .parseError st
  | .parsedResp hasErrors items =>
    if hasErrors then failWith cfg now .fetchFailed st
    else
      match items with
      | [] => failWith cfg now .fetchFailed st
      | item :: _ =>
        match item.basePrice with
        | none => failWith cfg now .invalidPrice st
        | some newPrice =>
          if newPrice ≤ 0 then failWith cfg now .invalidPrice st
          else
            let oldPrice := st.bitcoinPrice
            let floored : ℚ := (⌊newPrice⌋ : ℚ)
            let st :=
              { st with bitcoinPrice := floored,
                        logs := st.logs ++ logE cfg (.priceDelta oldPrice floored) }
            let w := savePriceToCache cfg floored now writeOk st.cacheFile
            (true, { st with cacheFile := w.1, logs := st.logs ++ w.2 })

/-- The `advanced` block of a config as it comes back from
`JSON.parse(...) as LBPRConfig`: the cast performs no validation, so every
field may be absent. -/
structure RawAdvanced where
  enablePriceCaching : Option Bool
  cacheExpirationHours : Option ℚ
  apiTimeout : Option ℚ
  userAgent : Option String
deriving DecidableEq, Repr

/-- A config object as it comes back from `JSON.parse(...) as LBPRConfig`:
any JSON document is accepted, so every field may be absent. -/
structure RawConfig where
  updateInterval : Option ℚ
  enableLogging : Option Bool
  enablePeriodicUpdates : Option Bool
  advanced : Option RawAdvanced
deriving DecidableEq, Repr

/-- The default config as the raw object `loadConfig` builds (all fields
present). -/
def defaultRawConfig : RawConfig :=
  { updateInterval := some 2700
    enableLogging := some true
    enablePeriodicUpdates := some true
    advanced := some
      { enablePriceCaching := some true
        cacheExpirationHours := some 6
        apiTimeout := some 15000
        userAgent := some "SPT-LiveBTC-PVE" } }

/-- State of the config file on disk as `loadConfig` observes it: absent,
present but rejected by `JSON.parse`, or parsed to some (possibly
partial) object. -/
inductive ConfigFileState where
  | missing
  | unparseable
  | parses (c : RawConfig)
deriving DecidableEq, Repr

/-- Truthiness of `LBPR.config?.enableLogging` while `LBPR.config` holds
`cur` (possibly still `null`): the gate at the top of `LBPR.log`. -/
def logGateRaw (cur : Option RawConfig) : Bool :=
  match cur with
  | none => false
  | some c => c.enableLogging = some true

/-- Result of `loadConfig`: the in-memory config it leaves behind, the
config file's state afterwards, and the log events actually emitted. -/
structure ConfigLoadResult where
  config : RawConfig
  file : ConfigFileState
  logs : List LogEvent
deriving DecidableEq, Repr

/-- `loadConfig` from the source. `cur` is the value of `LBPR.config` when
the call starts (`null` at the single call site). If the file is missing
it writes the default config and the subsequent read parses it back; if
parsing throws, it logs (through the `enableLogging` gate, which still
reads `cur`) and installs the in-memory default; otherwise the parsed
object is installed verbatim, unvalidated. -/
def loadConfig (cur : Option RawConfig) (file : ConfigFileState) : ConfigLoadResult :=
  match file with
  | .missing =>
    { config := defaultRawConfig, file := .parses defaultRawConfig, logs := [] }
  | .unparseable =>
    { config := defaultRawConfig, file := .unparseable,
      logs := if logGateRaw cur then [.configLoadFailed] else [] }
  | .parses c => { config := c, file := .parses c, logs := [] }

/-- Formalisation of the spec's phrase "fully populated with all fields
present" for a raw config object. -/
def RawConfig.fullyPopulated (c : RawConfig) : Bool :=
  c.updateInterval.isSome && c.enableLogging.isSome &&
  c.enablePeriodicUpdates.isSome &&
  match c.advanced with
  | none => false
  | some a =>
    a.enablePriceCaching.isSome && a.cacheExpirationHours.isSome &&
    a.apiTimeout.isSome && a.userAgent.isSome

/-- Inputs consumed by one fetch cycle: the request's outcome, the clock
reading during the cycle, and whether a cache write would succeed. -/
structure CycleInput where
  outcome : ApiOutcome
  now : ℚ
  writeOk : Bool
deriving DecidableEq, Repr

/-- Observable control-flow events of `postDBLoadAsync`, to state ordering
properties of the startup sequence. -/
inductive ProcEvent where
  | startupFetch
  | fallbackRun
  | timerArmed (intervalSec : ℚ)
  | tickFetch
deriving DecidableEq, Repr

/-- The body of the `setInterval` callback: log the start, run
`updatePrice`, log if it failed. -/
def runTick (cfg : LBPRConfig) (t : CycleInput) (st : EngineState) : EngineState :=
  let st := st.withLogs (logE cfg .scheduledUpdateStart)
  let r := updatePrice cfg t.outcome t.now t.writeOk st
  if r.1 then r.2 else r.2.withLogs (logE cfg .scheduledUpdateFailed)

/-- Successive timer ticks, each an independent cycle. -/
def runTicks (cfg : LBPRConfig) (ticks : List CycleInput) (st : EngineState) :
    EngineState :=
  ticks.foldl (fun s t => runTick cfg t s) st

/-- The startup fallback inlined in `postDBLoadAsync`: after a failed
first fetch, load the cached price and apply it unconditionally if
present. -/
def startupFallback (cfg : LBPRConfig) (now : ℚ) (st : EngineState) : EngineState :=
  let r := loadCachedPrice cfg st.cacheFile now
  let st := st.withLogs r.2
  match r.1 with
  | some c =>
    { st with bitcoinPrice := c, logs := st.logs ++ logE cfg (.startupFallback c) }
  | none => st.withLogs (logE cfg .startupNoCache)

/-- The fetch-and-schedule part of `postDBLoadAsync` (after the Tracked
Item was found): run the first fetch immediately; if it fails, run the
inline cache fallback; then, only if periodic updates are enabled, arm
`setInterval` once and run each tick. Returns the final state and the
trace of control-flow events in order. -/
def postDBLoadAsync (cfg : LBPRConfig) (startup : CycleInput)
    (ticks : List CycleInput) (st : EngineState) :
    EngineState × List ProcEvent :=
  let r := updatePrice cfg startup.outcome startup.now startup.writeOk st
  let stepped : EngineState × List ProcEvent :=
    if r.1 then (r.2, [.startupFetch])
    else (startupFallback cfg startup.now r.2, [.startupFetch, .fallbackRun])
  if cfg.enablePeriodicUpdates then
    (runTicks cfg ticks (stepped.1.withLogs (logE cfg .updatesScheduled)),
     stepped.2 ++ ProcEvent.timerArmed cfg.updateInterval ::
       ticks.map (fun _ => ProcEvent.tickFetch))
  else (stepped.1, stepped.2)

@[simp]
lemma withLogs_bitcoinPrice (st : EngineState) (ls : List LogEvent) :
    (st.withLogs ls).bitcoinPrice = st.bitcoinPrice := rfl

@[simp]
lemma withLogs_cacheFile (st : EngineState) (ls : List LogEvent) :
    (st.withLogs ls).cacheFile = st.cacheFile := rfl

@[simp]
lemma withLogs_logs (st : EngineState) (ls : List LogEvent) :
    (st.withLogs ls).logs = st.logs ++ ls := rfl

/-- C3: `loadCachedPrice` returns `none` exactly when caching is disabled,
the file is missing or unreadable, the stored value is not a positive
number, or the record is older than the TTL; any returned price is the
stored positive number of a fresh record; and the failure-path consumer
of a load never modifies the cache file. -/
theorem loadCachedPrice_absent_characterization (cfg : LBPRConfig)
    (file : CacheFileState) (now : ℚ) :
    ((loadCachedPrice cfg file now).1 = none ↔
      cfg.advanced.enablePriceCaching = false ∨
      file = .missing ∨ file = .corrupt ∨
      (∃ d, file = .parsed d ∧
        ((∀ q, d.entry ≠ .num q) ∨
         (∃ q, d.entry = .num q ∧
           (q ≤ 0 ∨ cfg.advanced.cacheExpirationHours < (now - d.lastUpdate) / 3600)))))
    ∧ (∀ q, (loadCachedPrice cfg file now).1 = some q →
        cfg.advanced.enablePriceCaching = true ∧ 0 < q ∧
        ∃ d, file = .parsed d ∧ d.entry = .num q ∧
          (now - d.lastUpdate) / 3600 ≤ cfg.advanced.cacheExpirationHours)
    ∧ (∀ st : EngineState, st.cacheFile = file →
        (handleApiFailure cfg now st).cacheFile = file) := by
  refine ⟨?_, ?_, ?_⟩
  · cases hc : cfg.advanced.enablePriceCaching
    · exact iff_of_true (by simp [loadCachedPrice, hc]) (Or.inl rfl)
    · cases file with
      | missing =>
        exact iff_of_true (by simp [loadCachedPrice, hc, logE]) (Or.inr (Or.inl rfl))
      | corrupt =>
        exact iff_of_true (by simp [loadCachedPrice, hc, logE])
          (Or.inr (Or.inr (Or.inl rfl)))
      | parsed d =>
        cases he : d.entry with
        | num q =>
          by_cases hq : q ≤ 0
          · exact iff_of_true (by simp [loadCachedPrice, hc, he, hq, logE])
              (Or.inr (Or.inr (Or.inr ⟨d, rfl, Or.inr ⟨q, he, Or.inl hq⟩⟩)))
          · by_cases hage :
                (now - d.lastUpdate) / 3600 > cfg.advanced.cacheExpirationHours
            · exact iff_of_true (by simp [loadCachedPrice, hc, he, hq, hage, logE])
                (Or.inr (Or.inr (Or.inr ⟨d, rfl, Or.inr ⟨q, he, Or.inr hage⟩⟩)))
            · refine iff_of_false (by simp [loadCachedPrice, hc, he, hq, hage, logE]) ?_
              rintro (h | h | h | ⟨d', hd', hall | ⟨q', hq', hbad⟩⟩)
              · exact Bool.noConfusion h
              · exact CacheFileState.noConfusion h
              · exact CacheFileState.noConfusion h
              · obtain rfl : d = d' := by injection hd'
                exact hall q he
              · obtain rfl : d = d' := by injection hd'
                rw [he] at hq'
                obtain rfl : q = q' := by injection hq'
                rcases hbad with hbad | hbad
                · exact hq hbad
                · exact hage hbad
        | str s =>
          refine iff_of_true (by simp [loadCachedPrice, hc, he, logE])
            (Or.inr (Or.inr (Or.inr ⟨d, rfl, Or.inl fun q h => ?_⟩)))
          rw [he] at h
          exact StoredVal.noConfusion h
        | absent =>
          refine iff_of_true (by simp [loadCachedPrice, hc, he, logE])
            (Or.inr (Or.inr (Or.inr ⟨d, rfl, Or.inl fun q h => ?_⟩)))
          rw [he] at h
          exact StoredVal.noConfusion h
  · intro q hq
    cases hc : cfg.advanced.enablePriceCaching
    · simp [loadCachedPrice, hc] at hq
    · cases file with
      | missing => simp [loadCachedPrice, hc, logE] at hq
      | corrupt => simp [loadCachedPrice, hc, logE] at hq
      | parsed d =>
        cases he : d.entry with
        | num q' =>
          by_cases hq0 : q' ≤ 0
          · simp [loadCachedPrice, hc, he, hq0, logE] at hq
          · by_cases hage :
                (now - d.lastUpdate) / 3600 > cfg.advanced.cacheExpirationHours
            · simp [loadCachedPrice, hc, he, hq0, hage, logE] at hq
            · have : q' = q := by
                simpa [loadCachedPrice, hc, he, hq0, hage, logE] using hq
              subst this
              exact ⟨rfl, lt_of_not_le hq0, d, rfl, he, le_of_not_lt hage⟩
        | str s => simp [loadCachedPrice, hc, he, logE] at hq
        | absent => simp [loadCachedPrice, hc, he, logE] at hq
  · intro st hst
    unfold handleApiFailure
    rcases h : (loadCachedPrice cfg st.cacheFile now).1 with _ | c
    · simp only [h]
      simpa using hst
    · simp only [h]
      by_cases hd : c = st.bitcoinPrice
      · simp [hd, hst, EngineState.withLogs]
      · simp [hd, hst, EngineState.withLogs]

/-- C3 witness: a fresh, positive cached record at age one hour is
returned, and the characterization's consequences hold for it. -/
theorem loadCachedPrice_absent_characterization_witness :
    (loadCachedPrice defaultConfig
        (.parsed ⟨.num 14000, "pve", 0⟩) 3600).1 = some 14000 ∧
    (defaultConfig.advanced.enablePriceCaching = true ∧ (0:ℚ) < 14000 ∧
      ∃ d, CacheFileState.parsed ⟨.num 14000, "pve", 0⟩ = .parsed d ∧
        d.entry = .num 14000 ∧
        ((3600:ℚ) - d.lastUpdate) / 3600 ≤ defaultConfig.advanced.cacheExpirationHours) :=
  ⟨by norm_num [loadCachedPrice, defaultConfig, logE],
   (loadCachedPrice_absent_characterization defaultConfig
      (.parsed ⟨.num 14000, "pve", 0⟩) 3600).2.1 14000
     (by norm_num [loadCachedPrice, defaultConfig, logE])⟩

theorem cache_validity_monotonic (cfg : LBPRConfig) (d : CacheData) (q t s : ℚ)
    (hentry : d.entry = .num q) (hpos : 0 < q) :
    ((loadCachedPrice cfg (.parsed d) (d.lastUpdate + t * 3600)).1 = some q →
      s < t →
      (loadCachedPrice cfg (.parsed d) (d.lastUpdate + s * 3600)).1 = some q)
    ∧ (cfg.advanced.cacheExpirationHours < t →
      (loadCachedPrice cfg (.parsed d) (d.lastUpdate + t * 3600)).1 = none) := by
  have hq0 : ¬ q ≤ 0 := not_le.mpr hpos
  constructor
  · intro hvalid hst
    cases hc : cfg.advanced.enablePriceCaching
    · simp [loadCachedPrice, hc] at hvalid
    · have hfresh : ¬ cfg.advanced.cacheExpirationHours < t := by
        intro hgt
        simp [loadCachedPrice, hc, hentry, hq0, hgt, logE] at hvalid
      have hs : ¬ cfg.advanced.cacheExpirationHours < s :=
        fun hgt => hfresh (lt_trans hgt hst)
      simp [loadCachedPrice, hc, hentry, hq0, hs, logE]
  · intro hstale
    cases hc : cfg.advanced.enablePriceCaching
    · simp [loadCachedPrice, hc]
    · simp [loadCachedPrice, hc, hentry, hq0, hstale, logE]

theorem cache_validity_monotonic_witness :
    ((loadCachedPrice defaultConfig
        (.parsed ⟨.num 14000, "pve", 0⟩) ((0:ℚ) + 2 * 3600)).1 = some 14000 ∧
      (1:ℚ) < 2) ∧
    (loadCachedPrice defaultConfig
        (.parsed ⟨.num 14000, "pve", 0⟩) ((0:ℚ) + 1 * 3600)).1 = some 14000 :=
  ⟨⟨by norm_num [loadCachedPrice, defaultConfig, logE], by norm_num⟩,
   (cache_validity_monotonic defaultConfig ⟨.num 14000, "pve", 0⟩ 14000 2 1
      rfl (by norm_num)).1
     (by norm_num [loadCachedPrice, defaultConfig, logE]) (by norm_num)⟩

theorem fallback_applies_cached_price_verbatim (cfg : LBPRConfig) (d : CacheData)
    (q now : ℚ) (st : EngineState)
    (hen : cfg.advanced.enablePriceCaching = true)
    (hentry : d.entry = .num q) (hpos : 0 < q)
    (hfile : st.cacheFile = .parsed d)
    (hfresh : (now - d.lastUpdate) / 3600 ≤ cfg.advanced.cacheExpirationHours)
    (hdiff : q ≠ st.bitcoinPrice) :
    (loadCachedPrice cfg st.cacheFile now).1 = some q ∧
    (handleApiFailure cfg now st).bitcoinPrice = q := by
  have hq0 : ¬ q ≤ 0 := not_le.mpr hpos
  have hload : (loadCachedPrice cfg st.cacheFile now).1 = some q := by
    simp [loadCachedPrice, hen, hfile, hentry, hq0, not_lt.mpr hfresh, logE]
  refine ⟨hload, ?_⟩
  unfold handleApiFailure
  simp only [hload]
  simp [hdiff]

theorem fallback_applies_cached_price_verbatim_witness :
    ((0:ℚ) < 28001 / 2 ∧ (28001 / 2 : ℚ) ≠ 13000 ∧
      ((⌊(28001 / 2 : ℚ)⌋ : ℚ) ≠ 28001 / 2)) ∧
    (handleApiFailure defaultConfig 3600
        ⟨13000, .parsed ⟨.num (28001 / 2), "pve", 0⟩, []⟩).bitcoinPrice =
      28001 / 2 :=
  ⟨⟨by norm_num, by norm_num, by norm_num⟩,
   (fallback_applies_cached_price_verbatim defaultConfig
      ⟨.num (28001 / 2), "pve", 0⟩ (28001 / 2) 3600
      ⟨13000, .parsed ⟨.num (28001 / 2), "pve", 0⟩, []⟩
      rfl rfl (by norm_num) rfl (by norm_num [defaultConfig]) (by norm_num)).2⟩

/-- Case analysis of `handleApiFailure`: the cache file is untouched, and
the price/log effect is determined by the loaded cache value's relation
to the live price. -/
lemma handleApiFailure_cases (cfg : LBPRConfig) (now : ℚ) (st : EngineState) :
    (handleApiFailure cfg now st).cacheFile = st.cacheFile ∧
    (∀ q, (loadCachedPrice cfg st.cacheFile now).1 = some q →
      (q ≠ st.bitcoinPrice →
        (handleApiFailure cfg now st).bitcoinPrice = q ∧
        (cfg.enableLogging = true →
          LogEvent.fallback st.bitcoinPrice q ∈ (handleApiFailure cfg now st).logs)) ∧
      (q = st.bitcoinPrice →
        (handleApiFailure cfg now st).bitcoinPrice = st.bitcoinPrice ∧
        (cfg.enableLogging = true →
          LogEvent.matchesCache q ∈ (handleApiFailure cfg now st).logs))) ∧
    ((loadCachedPrice cfg st.cacheFile now).1 = none →
      (handleApiFailure cfg now st).bitcoinPrice = st.bitcoinPrice ∧
      (cfg.enableLogging = true →
        LogEvent.noValidCache st.bitcoinPrice ∈ (handleApiFailure cfg now st).logs)) := by
  unfold handleApiFailure
  rcases h : (loadCachedPrice cfg st.cacheFile now).1 with _ | c
  · simp only [h]
    refine ⟨by simp, fun q hq => by simp [h] at hq, fun _ => ⟨by simp, fun hl => ?_⟩⟩
    simp [EngineState.withLogs, logE, hl]
  · simp only [h]
    refine ⟨?_, ?_, fun hn => by simp [h] at hn⟩
    · by_cases hd : c = st.bitcoinPrice <;> simp [hd, EngineState.withLogs]
    · intro q hq
      obtain rfl : c = q := by simpa using hq
      constructor
      · intro hne
        have hd : ¬ c = st.bitcoinPrice := hne
        refine ⟨by simp [hd, EngineState.withLogs], fun hl => ?_⟩
        simp [hd, EngineState.withLogs, logE, hl]
      · intro heq
        subst heq
        refine ⟨by simp [EngineState.withLogs], fun hl => ?_⟩
        simp [EngineState.withLogs, logE, hl]

/-- Every log `handleApiFailure` makes is appended after the incoming log. -/
lemma handleApiFailure_logs_prefix (cfg : LBPRConfig) (now : ℚ) (st : EngineState) :
    ∃ ls, (handleApiFailure cfg now st).logs = st.logs ++ ls := by
  unfold handleApiFailure
  rcases h : (loadCachedPrice cfg st.cacheFile now).1 with _ | c
  · refine ⟨(loadCachedPrice cfg st.cacheFile now).2 ++
      logE cfg (.noValidCache st.bitcoinPrice), ?_⟩
    simp only [h]
    simp [EngineState.withLogs]
  · by_cases hd : c = st.bitcoinPrice
    · refine ⟨(loadCachedPrice cfg st.cacheFile now).2 ++
        logE cfg (.matchesCache c), ?_⟩
      simp only [h]
      simp [EngineState.withLogs, hd]
    · refine ⟨(loadCachedPrice cfg st.cacheFile now).2 ++
        logE cfg (.fallback st.bitcoinPrice c), ?_⟩
      simp only [h]
      simp [EngineState.withLogs, hd]

/-- A resolving-`false` run of `updatePrice` is `failWith` at one of the
five distinguishing log events. -/
lemma updatePrice_failure_form (cfg : LBPRConfig) (o : ApiOutcome) (now : ℚ)
    (writeOk : Bool) (st : EngineState)
    (h : (updatePrice cfg o now writeOk st).1 = false) :
    ∃ e, updatePrice cfg o now writeOk st = failWith cfg now e st := by
  cases o with
  | transportError => exact ⟨.apiError, rfl⟩
  | timeout => exact ⟨.apiTimeout, rfl⟩
  | malformedBody => exact ⟨.parseError, rfl⟩
  | parsedResp hasErrors items =>
    cases hasErrors with
    | true => exact ⟨.fetchFailed, rfl⟩
    | false =>
      cases items with
      | nil => exact ⟨.fetchFailed, rfl⟩
      | cons item rest =>
        rcases hbp : item.basePrice with _ | q
        · exact ⟨.invalidPrice, by simp [updatePrice, hbp]⟩
        · by_cases hq : q ≤ 0
          · exact ⟨.invalidPrice, by simp [updatePrice, hbp, hq]⟩
          · exact absurd h (by simp [updatePrice, hbp, hq])

/-- C1: a fetch that succeeds with price `p > 0` sets the Tracked Item's
price to `⌊p⌋`, and (caching enabled, write succeeding) rewrites the cache
record with exactly that floored value and the current timestamp in
seconds. -/
theorem updatePrice_success_floors_and_caches (cfg : LBPRConfig) (q : ℚ)
    (rest : List RespItem) (now : ℚ) (writeOk : Bool) (st : EngineState)
    (hpos : 0 < q) :
    (updatePrice cfg (.parsedResp false (⟨some q⟩ :: rest)) now writeOk st).1 = true ∧
    (updatePrice cfg (.parsedResp false (⟨some q⟩ :: rest)) now writeOk
        st).2.bitcoinPrice = (⌊q⌋ : ℚ) ∧
    (cfg.advanced.enablePriceCaching = true → writeOk = true →
      (updatePrice cfg (.parsedResp false (⟨some q⟩ :: rest)) now writeOk
          st).2.cacheFile =
        .parsed ⟨.num (⌊q⌋ : ℚ), "pve", (⌊now⌋ : ℚ)⟩) := by
  have hq0 : ¬ q ≤ 0 := not_le.mpr hpos
  refine ⟨by simp [updatePrice, hq0], by simp [updatePrice, hq0, savePriceToCache], ?_⟩
  intro hc hw
  simp [updatePrice, hq0, savePriceToCache, hc, hw]

/-- C1 witness: a response of 15000.75 applies 15000 and caches it with
the floored timestamp. -/
theorem updatePrice_success_floors_and_caches_witness :
    ((0:ℚ) < 60003 / 4 ∧ defaultConfig.advanced.enablePriceCaching = true) ∧
    (updatePrice defaultConfig (.parsedResp false [⟨some (60003 / 4)⟩]) (1000 + 1/2)
        true ⟨13000, .missing, []⟩).1 = true ∧
    (updatePrice defaultConfig (.parsedResp false [⟨some (60003 / 4)⟩]) (1000 + 1/2)
        true ⟨13000, .missing, []⟩).2.bitcoinPrice = ((⌊(60003 / 4 : ℚ)⌋ : ℤ) : ℚ) ∧
    (defaultConfig.advanced.enablePriceCaching = true → true = true →
      (updatePrice defaultConfig (.parsedResp false [⟨some (60003 / 4)⟩]) (1000 + 1/2)
          true ⟨13000, .missing, []⟩).2.cacheFile =
        .parsed ⟨.num ((⌊(60003 / 4 : ℚ)⌋ : ℤ) : ℚ), "pve",
          ((⌊(1000 + 1/2 : ℚ)⌋ : ℤ) : ℚ)⟩) :=
  ⟨⟨by norm_num, rfl⟩,
   updatePrice_success_floors_and_caches defaultConfig (60003 / 4) [] (1000 + 1/2)
     true ⟨13000, .missing, []⟩ (by norm_num)⟩

/-- C7: a failed cache write during a successful fetch is logged and
non-fatal — the cycle still resolves `true` with the price applied and
the cache file untouched — and `savePriceToCache` is a no-op when caching
is disabled. -/
theorem cache_write_failure_nonfatal (cfg : LBPRConfig) (q : ℚ)
    (rest : List RespItem) (now : ℚ) (st : EngineState) (hpos : 0 < q) :
    ((updatePrice cfg (.parsedResp false (⟨some q⟩ :: rest)) now false st).1 = true ∧
     (updatePrice cfg (.parsedResp false (⟨some q⟩ :: rest)) now false
         st).2.bitcoinPrice = (⌊q⌋ : ℚ) ∧
     (updatePrice cfg (.parsedResp false (⟨some q⟩ :: rest)) now false
         st).2.cacheFile = st.cacheFile ∧
     (cfg.advanced.enablePriceCaching = true → cfg.enableLogging = true →
       LogEvent.cacheSaveFailed ∈
         (updatePrice cfg (.parsedResp false (⟨some q⟩ :: rest)) now false
           st).2.logs)) ∧
    (∀ (price now' : ℚ) (writeOk : Bool) (file : CacheFileState),
      cfg.advanced.enablePriceCaching = false →
      savePriceToCache cfg price now' writeOk file = (file, [])) := by
  have hq0 : ¬ q ≤ 0 := not_le.mpr hpos
  refine ⟨⟨by simp [updatePrice, hq0], by simp [updatePrice, hq0, savePriceToCache], ?_, ?_⟩, ?_⟩
  · by_cases hc : cfg.advanced.enablePriceCaching <;>
      simp [updatePrice, hq0, savePriceToCache, hc]
  · intro hc hl
    simp [updatePrice, hq0, savePriceToCache, hc, hl, logE]
  · intro price now' writeOk file hc
    simp [savePriceToCache, hc]

/-- C7 witness: with the write failing, the fetch still succeeds, the
price is applied, the cache file stays as it was, and the failure is
logged. -/
theorem cache_write_failure_nonfatal_witness :
    ((0:ℚ) < 15000 ∧ defaultConfig.advanced.enablePriceCaching = true ∧
      defaultConfig.enableLogging = true) ∧
    (updatePrice defaultConfig (.parsedResp false [⟨some 15000⟩]) 1000 false
        ⟨13000, .missing, []⟩).1 = true ∧
    (updatePrice defaultConfig (.parsedResp false [⟨some 15000⟩]) 1000 false
        ⟨13000, .missing, []⟩).2.cacheFile = .missing ∧
    LogEvent.cacheSaveFailed ∈
      (updatePrice defaultConfig (.parsedResp false [⟨some 15000⟩]) 1000 false
        ⟨13000, .missing, []⟩).2.logs :=
  ⟨⟨by norm_num, rfl, rfl⟩,
   ((cache_write_failure_nonfatal defaultConfig 15000 [] 1000
       ⟨13000, .missing, []⟩ (by norm_num)).1).1,
   ((cache_write_failure_nonfatal defaultConfig 15000 [] 1000
       ⟨13000, .missing, []⟩ (by norm_num)).1).2.2.1,
   ((cache_write_failure_nonfatal defaultConfig 15000 [] 1000
       ⟨13000, .missing, []⟩ (by norm_num)).1).2.2.2 rfl rfl⟩

/-- C2: on every fetch failure the Tracked Item's price changes exactly
when a valid cached price exists and differs from the live price (to that
cached value); when the cached price matches, or no valid cached price
exists, the price is left unchanged; the three sub-cases log their
distinct messages; and the cache file is not modified. -/
theorem updatePrice_failure_fallback_policy (cfg : LBPRConfig) (o : ApiOutcome)
    (now : ℚ) (writeOk : Bool) (st : EngineState)
    (hfail : (updatePrice cfg o now writeOk st).1 = false) :
    (updatePrice cfg o now writeOk st).2.cacheFile = st.cacheFile ∧
    (∀ q, (loadCachedPrice cfg st.cacheFile now).1 = some q →
      (q ≠ st.bitcoinPrice →
        (updatePrice cfg o now writeOk st).2.bitcoinPrice = q ∧
        (cfg.enableLogging = true →
          LogEvent.fallback st.bitcoinPrice q ∈
            (updatePrice cfg o now writeOk st).2.logs)) ∧
      (q = st.bitcoinPrice →
        (updatePrice cfg o now writeOk st).2.bitcoinPrice = st.bitcoinPrice ∧
        (cfg.enableLogging = true →
          LogEvent.matchesCache q ∈ (updatePrice cfg o now writeOk st).2.logs))) ∧
    ((loadCachedPrice cfg st.cacheFile now).1 = none →
      (updatePrice cfg o now writeOk st).2.bitcoinPrice = st.bitcoinPrice ∧
      (cfg.enableLogging = true →
        LogEvent.noValidCache st.bitcoinPrice ∈
          (updatePrice cfg o now writeOk st).2.logs)) := by
  obtain ⟨e, he⟩ := updatePrice_failure_form cfg o now writeOk st hfail
  rw [he]
  have h := handleApiFailure_cases cfg now (st.withLogs (logE cfg e))
  simp only [failWith, withLogs_cacheFile, withLogs_bitcoinPrice] at h ⊢
  exact h

/-- C2 witness: a timeout with a fresh differing cached price of 14000
applies the fallback and logs it; the cache file is untouched. -/
theorem updatePrice_failure_fallback_policy_witness :
    ((updatePrice defaultConfig .timeout 3600 true
        ⟨13000, .parsed ⟨.num 14000, "pve", 0⟩, []⟩).1 = false ∧
      (loadCachedPrice defaultConfig
        (CacheFileState.parsed ⟨.num 14000, "pve", 0⟩) 3600).1 = some 14000 ∧
      (14000 : ℚ) ≠ 13000) ∧
    (updatePrice defaultConfig .timeout 3600 true
        ⟨13000, .parsed ⟨.num 14000, "pve", 0⟩, []⟩).2.cacheFile =
      .parsed ⟨.num 14000, "pve", 0⟩ ∧
    (updatePrice defaultConfig .timeout 3600 true
        ⟨13000, .parsed ⟨.num 14000, "pve", 0⟩, []⟩).2.bitcoinPrice = 14000 ∧
    LogEvent.fallback 13000 14000 ∈
      (updatePrice defaultConfig .timeout 3600 true
        ⟨13000, .parsed ⟨.num 14000, "pve", 0⟩, []⟩).2.logs := by
  have hfail : (updatePrice defaultConfig .timeout 3600 true
      ⟨13000, .parsed ⟨.num 14000, "pve", 0⟩, []⟩).1 = false := rfl
  have h := updatePrice_failure_fallback_policy defaultConfig .timeout 3600 true
    ⟨13000, .parsed ⟨.num 14000, "pve", 0⟩, []⟩ hfail
  have hload : (loadCachedPrice defaultConfig
      (CacheFileState.parsed ⟨.num 14000, "pve", 0⟩) 3600).1 = some 14000 := by
    norm_num [loadCachedPrice, defaultConfig, logE]
  have hcase := (h.2.1 14000 hload).1 (by norm_num)
  exact ⟨⟨hfail, hload, by norm_num⟩, h.1, hcase.1, hcase.2 rfl⟩

/-- The distinguishing failure log of `failWith` ends up in the final log
when logging is enabled. -/
lemma failWith_mem_log (cfg : LBPRConfig) (now : ℚ) (e : LogEvent)
    (st : EngineState) (hl : cfg.enableLogging = true) :
    e ∈ (failWith cfg now e st).2.logs := by
  obtain ⟨ls, hls⟩ := handleApiFailure_logs_prefix cfg now (st.withLogs (logE cfg e))
  simp only [failWith, hls, withLogs_logs]
  simp [logE, hl]

/-- C5 (amended): a fetch succeeds exactly when the parsed response has no
error payload, a first item, and a present positive price `p`; the applied
price is then `⌊p⌋`, which is nonnegative and positive whenever `p ≥ 1`
(but is `0` for `0 < p < 1`); and each failure class logs its distinct
reason. -/
theorem updatePrice_success_criteria (cfg : LBPRConfig) (o : ApiOutcome)
    (now : ℚ) (writeOk : Bool) (st : EngineState) :
    ((updatePrice cfg o now writeOk st).1 = true ↔
      ∃ q rest, o = .parsedResp false (⟨some q⟩ :: rest) ∧ 0 < q) ∧
    (∀ q rest, o = .parsedResp false (⟨some q⟩ :: rest) → 0 < q →
      (updatePrice cfg o now writeOk st).2.bitcoinPrice = (⌊q⌋ : ℚ) ∧
      0 ≤ (updatePrice cfg o now writeOk st).2.bitcoinPrice ∧
      (1 ≤ q → 1 ≤ (updatePrice cfg o now writeOk st).2.bitcoinPrice)) ∧
    (cfg.enableLogging = true →
      (o = .transportError → LogEvent.apiError ∈ (updatePrice cfg o now writeOk st).2.logs) ∧
      (o = .timeout → LogEvent.apiTimeout ∈ (updatePrice cfg o now writeOk st).2.logs) ∧
      (o = .malformedBody → LogEvent.parseError ∈ (updatePrice cfg o now writeOk st).2.logs) ∧
      (∀ items, o = .parsedResp true items →
        LogEvent.fetchFailed ∈ (updatePrice cfg o now writeOk st).2.logs) ∧
      (o = .parsedResp false [] →
        LogEvent.fetchFailed ∈ (updatePrice cfg o now writeOk st).2.logs) ∧
      (∀ rest, o = .parsedResp false (⟨none⟩ :: rest) →
        LogEvent.invalidPrice ∈ (updatePrice cfg o now writeOk st).2.logs) ∧
      (∀ q rest, o = .parsedResp false (⟨some q⟩ :: rest) → q ≤ 0 →
        LogEvent.invalidPrice ∈ (updatePrice cfg o now writeOk st).2.logs)) := by
  refine ⟨⟨?_, ?_⟩, ?_, ?_⟩
  · intro hs
    cases o with
    | transportError => simp [updatePrice, failWith] at hs
    | timeout => simp [updatePrice, failWith] at hs
    | malformedBody => simp [updatePrice, failWith] at hs
    | parsedResp hasErrors items =>
      cases hasErrors with
      | true => simp [updatePrice, failWith] at hs
      | false =>
        cases items with
        | nil => simp [updatePrice, failWith] at hs
        | cons item rest =>
          rcases hbp : item.basePrice with _ | q
          · simp [updatePrice, failWith, hbp] at hs
          · by_cases hq : q ≤ 0
            · simp [updatePrice, failWith, hbp, hq] at hs
            · exact ⟨q, rest, by rw [show item = ⟨some q⟩ from by cases item; simpa using hbp],
                lt_of_not_le hq⟩
  · rintro ⟨q, rest, rfl, hq⟩
    simp [updatePrice, not_le.mpr hq]
  · rintro q rest rfl hq
    have hq0 : ¬ q ≤ 0 := not_le.mpr hq
    have hfl : (updatePrice cfg (.parsedResp false (⟨some q⟩ :: rest)) now writeOk
        st).2.bitcoinPrice = (⌊q⌋ : ℚ) := by
      simp [updatePrice, hq0]
    refine ⟨hfl, ?_, ?_⟩
    · rw [hfl]
      exact_mod_cast Int.floor_nonneg.mpr (le_of_lt hq)
    · intro h1
      rw [hfl]
      exact_mod_cast Int.le_floor.mpr (by exact_mod_cast h1)
  · intro hl
    refine ⟨?_, ?_, ?_, ?_, ?_, ?_, ?_⟩
    · rintro rfl; exact failWith_mem_log cfg now .apiError st hl
    · rintro rfl; exact failWith_mem_log cfg now .apiTimeout st hl
    · rintro rfl; exact failWith_mem_log cfg now .parseError st hl
    · rintro items rfl; exact failWith_mem_log cfg now .fetchFailed st hl
    · rintro rfl; exact failWith_mem_log cfg now .fetchFailed st hl
    · rintro rest rfl; exact failWith_mem_log cfg now .invalidPrice st hl
    · rintro q rest rfl hq
      have : updatePrice cfg (.parsedResp false (⟨some q⟩ :: rest)) now writeOk st =
          failWith cfg now .invalidPrice st := by
        simp [updatePrice, hq]
      rw [this]
      exact failWith_mem_log cfg now .invalidPrice st hl

/-- C5 witness: a timeout logs its distinct reason, and a success at
price 15000 applies a positive floored price. -/
theorem updatePrice_success_criteria_witness :
    (defaultConfig.enableLogging = true ∧ (1:ℚ) ≤ 15000) ∧
    LogEvent.apiTimeout ∈
      (updatePrice defaultConfig .timeout 1000 true ⟨13000, .missing, []⟩).2.logs ∧
    (1:ℚ) ≤ (updatePrice defaultConfig (.parsedResp false [⟨some 15000⟩]) 1000 true
      ⟨13000, .missing, []⟩).2.bitcoinPrice :=
  ⟨⟨rfl, by norm_num⟩,
   ((updatePrice_success_criteria defaultConfig .timeout 1000 true
       ⟨13000, .missing, []⟩).2.2 rfl).2.1 rfl,
   ((updatePrice_success_criteria defaultConfig (.parsedResp false [⟨some 15000⟩])
       1000 true ⟨13000, .missing, []⟩).2.1 15000 [] rfl (by norm_num)).2.2
     (by norm_num)⟩

/-- C5 counterexample: a response with `basePrice = 1/2` is accepted as a
success, yet the applied (floored) price is `0`, which is not positive. -/
theorem updatePrice_success_positive_price_cex :
    (updatePrice defaultConfig (.parsedResp false [⟨some (1/2)⟩]) 1000 true
        ⟨13000, .missing, []⟩).1 = true ∧
    ¬ 0 < (updatePrice defaultConfig (.parsedResp false [⟨some (1/2)⟩]) 1000 true
        ⟨13000, .missing, []⟩).2.bitcoinPrice := by
  have hfloor : (⌊(1/2 : ℚ)⌋ : ℤ) = 0 := by
    rw [Int.floor_eq_zero_iff]
    constructor <;> norm_num
  constructor
  · norm_num [updatePrice]
  · norm_num [updatePrice, hfloor]

/-- C4 counterexample: a config file whose content is the JSON object
`{}` parses, is cast without validation, and leaves every config field
absent — the in-memory config is not fully populated. -/
theorem loadConfig_fully_populated_cex :
    (loadConfig none (.parses ⟨none, none, none, none⟩)).config.fullyPopulated =
      false := rfl

/-- C4 (amended): `loadConfig` is total and never throws; the resulting
config is the fully-populated default whenever the file is missing or
fails to parse, but a file that parses as JSON is installed verbatim
without field validation and may be partial. -/
theorem loadConfig_total_amended (cur : Option RawConfig) (file : ConfigFileState) :
    ((loadConfig cur file).config = defaultRawConfig ∨
      ∃ c, file = .parses c ∧ (loadConfig cur file).config = c) ∧
    ((loadConfig cur .missing).config.fullyPopulated = true ∧
      (loadConfig cur .unparseable).config.fullyPopulated = true) ∧
    (∀ c, (loadConfig cur (.parses c)).config = c) := by
  refine ⟨?_, ⟨rfl, rfl⟩, fun _ => rfl⟩
  cases file with
  | missing => exact Or.inl rfl
  | unparseable => exact Or.inl rfl
  | parses c => exact Or.inr ⟨c, rfl, rfl⟩

/-- Had the `enableLogging` gate been open at the time of the call, the
parse-failure log would have been emitted: the suppression below comes
from the gate alone. -/
lemma loadConfig_gate_open_logs :
    (loadConfig (some defaultRawConfig) .unparseable).logs =
      [.configLoadFailed] := by
  simp [loadConfig, logGateRaw, defaultRawConfig]

/-- C6: when the config file exists but fails to parse, the in-memory
config falls back to the defaults and the bad file is left untouched —
but no error is actually emitted: `loadConfig` calls `LBPR.log` before
assigning the fallback config, and the `enableLogging` gate reads the
still-`null` `LBPR.config` (always `null` at the one call site), so the
call returns without logging anything. -/
theorem loadConfig_parse_failure_log_suppressed :
    (loadConfig none .unparseable).logs = [] ∧
    (loadConfig none .unparseable).config = defaultRawConfig ∧
    (loadConfig none .unparseable).file = .unparseable ∧
    (∀ c, (loadConfig none (.parses c)).file = .parses c) :=
  ⟨rfl, rfl, rfl, fun _ => rfl⟩

/-- C8: the startup fetch is always the first event; the inline cache
fallback runs (exactly) when it fails, before anything else; the timer is
armed exactly once, after the startup sequence and only when periodic
updates are enabled; and every tick then runs as an independent cycle
(`runTicks` processes a further tick regardless of earlier outcomes). -/
theorem postDBLoadAsync_event_order (cfg : LBPRConfig) (startup : CycleInput)
    (ticks : List CycleInput) (st : EngineState) :
    (postDBLoadAsync cfg startup ticks st).2 =
      [ProcEvent.startupFetch] ++
      (if (updatePrice cfg startup.outcome startup.now startup.writeOk st).1 then
        ([] : List ProcEvent)
      else [ProcEvent.fallbackRun]) ++
      (if cfg.enablePeriodicUpdates then
        ProcEvent.timerArmed cfg.updateInterval ::
          ticks.map (fun _ => ProcEvent.tickFetch)
      else []) ∧
    (∀ (ts : List CycleInput) (t : CycleInput) (s : EngineState),
      runTicks cfg (ts ++ [t]) s = runTick cfg t (runTicks cfg ts s)) := by
  constructor
  · unfold postDBLoadAsync
    cases hr : (updatePrice cfg startup.outcome startup.now startup.writeOk st).1 <;>
      cases hp : cfg.enablePeriodicUpdates <;> simp [hr, hp]
  · intro ts t s
    simp [runTicks, List.foldl_append]

end LBPR
